import Mathlib

/-!
Verification of the natural-language specification of the NHLschedule
repository against a shallow embedding of its Python sources
(`nhl_schedule/ratings.py`, `nhl_schedule/export.py`,
`nhl_schedule/schedule_io.py`, `nhl_schedule/config.py`).

Modelling conventions:

* pandas DataFrames become `List`s of record structures; a missing
  (NaN) cell becomes an `Option`.
* float arithmetic becomes exact `ℚ` arithmetic.  `numpy.rint`,
  `Series.round(0)` and the builtin `round` of Python all round halves
  to even; this is `rint` below.  Rationals are never NaN or infinite,
  so branches of the source that only guard against non-finite floats
  are noted in comments where they collapse.
* a square root appears only inside the per-feature standard deviation
  of `_ease_from_defense` (ratings.py line 55); it is irrational in
  general, so the scorer is parameterised over an arbitrary standard
  deviation function `sigmaFn`, and every theorem about the scorer is
  proved for every such function, in particular for the real one.
* dates become day counts (days since 0000-03-01, proleptic Gregorian
  calendar), with the civil-calendar conversions written out so that
  the week derivation of `read_schedule` is executable.
-/

namespace NHL

/-- Round half to even, the rounding used by `numpy.rint`,
`Series.round(0)` and the builtin `round` of Python. -/
def rint (q : ℚ) : ℤ :=
  if q - (⌊q⌋ : ℚ) < 1/2 then ⌊q⌋
  else if 1/2 < q - (⌊q⌋ : ℚ) then ⌊q⌋ + 1
  else if ⌊q⌋ % 2 = 0 then ⌊q⌋ else ⌊q⌋ + 1

/-- Embeds `numpy.clip x 0 100` (used in ratings.py lines 89 and 160). -/
def clip0100 (q : ℚ) : ℚ := max 0 (min q 100)

/-- Mean of a list of rationals.  On the empty list this is `0/0 = 0`
in `ℚ`; callers only evaluate it on nonempty lists. -/
def mean (l : List ℚ) : ℚ := l.sum / (l.length : ℚ)

/-- Population variance (`ddof=0`), as used by
`df[col].std(ddof=0)` squared in ratings.py line 55. -/
def popVar (l : List ℚ) : ℚ :=
  (l.map (fun x => (x - mean l) ^ 2)).sum / (l.length : ℚ)

/-- Sample variance (`ddof=1`), the square of the default pandas
`Series.std()` used in export.py line 178.  Only evaluated on lists of
length at least 2 (shorter lists give a NaN standard deviation in
pandas, which compares false against every threshold; the caller
checks the length first). -/
def sampleVar (l : List ℚ) : ℚ :=
  (l.map (fun x => (x - mean l) ^ 2)).sum / ((l.length : ℚ) - 1)

/-- Mean of the non-missing entries of a column, `none` when every
entry is missing: the default NaN-skipping `mean` aggregation of
pandas (export.py line 139). -/
def nanmean (xs : List (Option ℚ)) : Option ℚ :=
  if (xs.filterMap id).isEmpty then none else some (mean (xs.filterMap id))

/-- First-occurrence de-duplication, the semantics of
`pandas.Index.unique()`. -/
def uniqAux [DecidableEq α] (seen : List α) : List α → List α
  | [] => []
  | x :: xs => if x ∈ seen then uniqAux seen xs else x :: uniqAux (x :: seen) xs

/-- Embeds `pandas.Index(...).unique()`: keep the first occurrence of each
element, in order. -/
def uniq [DecidableEq α] (l : List α) : List α := uniqAux [] l

theorem mem_uniqAux [DecidableEq α] (x : α) :
    ∀ (l seen : List α), x ∈ uniqAux seen l ↔ x ∈ l ∧ x ∉ seen := by
  intro l
  induction l with
  | nil => intro seen; simp [uniqAux]
  | cons y ys ih =>
      intro seen
      by_cases hy : y ∈ seen
      · simp only [uniqAux, if_pos hy, ih, List.mem_cons]
        constructor
        · rintro ⟨h1, h2⟩; exact ⟨Or.inr h1, h2⟩
        · rintro ⟨h1 | h1, h2⟩
          · exact absurd (h1 ▸ hy) h2
          · exact ⟨h1, h2⟩
      · simp only [uniqAux, if_neg hy, List.mem_cons, ih]
        constructor
        · rintro (rfl | ⟨h1, h2⟩)
          · exact ⟨Or.inl rfl, hy⟩
          · refine ⟨Or.inr h1, fun hx => h2 ?_⟩
            simp [hx]
        · rintro ⟨rfl | h1, h2⟩
          · exact Or.inl rfl
          · by_cases hxy : x = y
            · exact Or.inl hxy
            · exact Or.inr ⟨h1, by simp [h2, hxy]⟩

theorem mem_uniq [DecidableEq α] (x : α) (l : List α) :
    x ∈ uniq l ↔ x ∈ l := by
  simp [uniq, mem_uniqAux]

/-- Insert into a sorted list: helper for `insSort`. -/
def insSorted (le : α → α → Bool) (x : α) : List α → List α
  | [] => [x]
  | y :: ys => if le x y then x :: y :: ys else y :: insSorted le x ys

/-- Insertion sort, modelling `DataFrame.sort_values` (the claims
proved below only use the result up to permutation, so the tie-breaking
order of the unstable pandas quicksort is immaterial). -/
def insSort (le : α → α → Bool) : List α → List α
  | [] => []
  | x :: xs => insSorted le x (insSort le xs)

theorem perm_insSorted (le : α → α → Bool) (x : α) :
    ∀ l : List α, List.Perm (insSorted le x l) (x :: l) := by
  intro l
  induction l with
  | nil => simp [insSorted]
  | cons y ys ih =>
      by_cases h : le x y
      · simp [insSorted, h]
      · simp only [insSorted, if_neg h]
        exact ((ih.cons y).trans (List.Perm.swap x y ys))

theorem perm_insSort (le : α → α → Bool) :
    ∀ l : List α, List.Perm (insSort le l) l := by
  intro l
  induction l with
  | nil => simp [insSort]
  | cons x xs ih =>
      exact (perm_insSorted le x (insSort le xs)).trans (ih.cons x)

theorem mem_insSort (le : α → α → Bool) (x : α) (l : List α) :
    x ∈ insSort le l ↔ x ∈ l :=
  (perm_insSort le l).mem_iff

/-- Linear-interpolation percentile of a list, the default method of
`numpy.nanpercentile` (ratings.py line 81); `q` is in percent.  Only
evaluated on nonempty lists. -/
def percentileLinear (l : List ℚ) (q : ℚ) : ℚ :=
  let s := insSort (fun a b => decide (a ≤ b)) l
  let pos : ℚ := ((s.length : ℚ) - 1) * q / 100
  let i : ℕ := (Int.toNat ⌊pos⌋)
  let frac : ℚ := pos - (i : ℚ)
  match s.get? (i + 1) with
  | some hi => s.getD i 0 + frac * (hi - s.getD i 0)
  | none => s.getD i 0

/-!
Embedding of `nhl_schedule/ratings.py`

A situational defense table row carries a team name and the five
feature columns of `FEATURE_WEIGHTS` (config.py); a `none` cell is a
NaN.  The columns themselves are part of the type, which models the
normal case where the upstream table has the expected structure (the
missing-column guard of ratings.py lines 30-36 concerns a schema
change and is outside this typed embedding).
-/

/-- One row of a situational defense stat table
(`team` plus the five feature columns of `FEATURE_WEIGHTS`). -/
structure DefRow where
  team : String
  xga60 : Option ℚ
  sca60 : Option ℚ
  hdca60 : Option ℚ
  ga60 : Option ℚ
  sa60 : Option ℚ
deriving DecidableEq, Repr

/-- Embeds `FEATURE_WEIGHTS` from config.py: feature accessors paired with
their weights. -/
def FEATURE_WEIGHTS : List ((DefRow → Option ℚ) × ℚ) :=
  [(DefRow.xga60, 0.35), (DefRow.sca60, 0.20), (DefRow.hdca60, 0.20),
   (DefRow.ga60, 0.15), (DefRow.sa60, 0.10)]

/-- A row is complete when none of the five required feature cells is
missing (the `dropna` of ratings.py line 41 keeps exactly these). -/
def DefRow.complete (r : DefRow) : Bool :=
  r.xga60.isSome && r.sca60.isSome && r.hdca60.isSome &&
    r.ga60.isSome && r.sa60.isSome

/-- Z-score of one feature cell of a (complete) row, ratings.py lines
53-62: zero when the standard deviation is zero, otherwise
`(x - mean) / sigma`.  `sigmaFn` stands for the float standard
deviation `df[col].std(ddof=0)`; rationals are never non-finite, so
the `np.isfinite(sigma)` half of the guard on line 57 collapses. -/
def zscore (sigmaFn : List ℚ → ℚ) (vals : List ℚ) (x : ℚ) : ℚ :=
  let mu := mean vals
  let sigma := sigmaFn vals
  if sigma = 0 then 0 else (x - mu) / sigma

/-- The weighted composite of ratings.py line 65, negated on line 70:
ease z-value of one complete row against the complete-row population. -/
def easeZ (sigmaFn : List ℚ → ℚ) (comp : List DefRow) (r : DefRow) : ℚ :=
  -(FEATURE_WEIGHTS.map (fun fw =>
      fw.2 * zscore sigmaFn (comp.map (fun s => (fw.1 s).getD 0)) ((fw.1 r).getD 0))).sum

/-- Embeds `_ease_from_defense` (ratings.py lines 12-96).  `none` is the
`df is None` case.  After `dropna`, complete feature cells are read
with `getD 0` (never hit: the rows are complete).  In the rational
embedding every ease z-value is finite, so the empty-`vals` guard of
lines 74-79 collapses into the main path. -/
def easeFromDefense (sigmaFn : List ℚ → ℚ) :
    Option (List DefRow) → List (String × ℚ)
  | none => []
  | some df =>
    if df.isEmpty then []
    else
      let comp := df.filter DefRow.complete
      if comp.length < 3 then
        (uniq (df.map DefRow.team)).map (fun t => (t, (50 : ℚ)))
      else
        let ez := comp.map (easeZ sigmaFn comp)
        let q5 := percentileLinear ez 5
        let q95 := percentileLinear ez 95
        comp.map (fun r =>
          (r.team,
            if q95 = q5 then (50 : ℚ)
            else clip0100 (100 * (easeZ sigmaFn comp r - q5) / (q95 - q5))))

/-- Embeds `SITUATION_WEIGHTS` from config.py, including the unused fourth
`remainder` slot. -/
structure SituWeights where
  sva : ℚ
  pp : ℚ
  pk : ℚ
  remainder : ℚ
deriving DecidableEq, Repr

/-- The configured situation weights (config.py). -/
def SITUATION_WEIGHTS : SituWeights := ⟨0.75, 0.10, 0.10, 0.05⟩

/-- Weight normalization of ratings.py lines 143-151: the three
situation weights are divided by their total, after replacing them by
the defaults 0.75/0.10/0.10 (total 0.95) when the total is not
positive.  The `remainder` slot is ignored. -/
def normWeights (w : SituWeights) : ℚ × ℚ × ℚ :=
  let total := w.sva + w.pp + w.pk
  if total ≤ 0 then (0.75 / 0.95, 0.10 / 0.95, 0.10 / 0.95)
  else (w.sva / total, w.pp / total, w.pk / total)

/-- Tier mapping of ratings.py line 168: `pd.cut` with bins
`[-1, 30, 50, 70, 100]` (right-closed); scores outside every bin get
no label. -/
def tierOf (v : ℤ) : Option String :=
  if -1 < v ∧ v ≤ 30 then some "Excellent"
  else if 30 < v ∧ v ≤ 50 then some "Good"
  else if 50 < v ∧ v ≤ 70 then some "Average"
  else if 70 < v ∧ v ≤ 100 then some "Difficult"
  else none

/-- The three situational tables handed to `build_combined_ease`
(`get_all_situations` returns the keys `sva`, `pp`, `pk` in this
order; `none` is a `None` table). -/
structure SituInput where
  sva : Option (List DefRow)
  pp : Option (List DefRow)
  pk : Option (List DefRow)

/-- One output row of `build_combined_ease`:
`team`, `OppDefenseScore0to100`, `OppDefenseTier`. -/
structure CombRow where
  team : String
  score : ℤ
  tier : Option String
deriving DecidableEq, Repr

/-- Column lookup for a merged part: left-merge on `team`
(ratings.py line 130).  The situational ease tables produced upstream
have one row per team, so the merge is a first-match lookup. -/
def partLookup (part : List (String × ℚ)) (t : String) : Option ℚ :=
  (part.find? (fun p => decide (p.1 = t))).map (fun p => p.2)

/-- The fill of ratings.py lines 133-140 followed by the
`base.get(col, 50.0)` of lines 155-158: an empty part never became a
column, so every team reads the scalar default 50; a nonempty part is
a merged column whose missing entries are filled with the column mean
(or 50 when the column mean is NaN, i.e. when no entry matched). -/
def filledValue (base : List String) (part : List (String × ℚ)) (t : String) : ℚ :=
  if part.isEmpty then 50
  else
    let col := base.map (partLookup part)
    let present := col.filterMap id
    let fill := if present.isEmpty then (50 : ℚ) else mean present
    (partLookup part t).getD fill

/-- Core of `build_combined_ease` (ratings.py lines 99-174) after the
weights have been normalized. -/
def buildCombinedEaseGo (sigmaFn : List ℚ → ℚ) (nw : ℚ × ℚ × ℚ)
    (situ : SituInput) : List CombRow :=
  let pSva := easeFromDefense sigmaFn situ.sva
  let pPp := easeFromDefense sigmaFn situ.pp
  let pPk := easeFromDefense sigmaFn situ.pk
  let teamSets := ([pSva, pPp, pPk].filter (fun p => !p.isEmpty)).map
    (List.map (fun r => r.1))
  if teamSets.isEmpty then []
  else
    let base := uniq teamSets.flatten
    base.map (fun t =>
      let combined := nw.1 * filledValue base pSva t
        + nw.2.1 * filledValue base pPp t
        + nw.2.2 * filledValue base pPk t
      let sc := rint (clip0100 combined)
      ⟨t, sc, tierOf sc⟩)

/-- Embeds `build_combined_ease`: normalize the configured weights, then
combine the three situational ease tables. -/
def buildCombinedEase (sigmaFn : List ℚ → ℚ) (w : SituWeights)
    (situ : SituInput) : List CombRow :=
  buildCombinedEaseGo sigmaFn (normWeights w) situ

/-!
Embedding of `nhl_schedule/export.py`

`to_lookup_table` is embedded along its strength-of-schedule data
path: the left merge of opponent ease onto the matchups, the
`(team, week)` group-by, the SOS aggregation, the zero-variance guard
followed by the `np.random.randint` replacement (modelled by an
explicit random stream `rand`), and the final formatting.  The columns
`B2B`, `Away`, `GamesRestOfWeek` and `GamesROS` are independent of
this path and are omitted; `GamesRestOfWeek` and the current-week
detection additionally depend on the wall clock (`date.today()`),
which has no place in a pure embedding.  The `opp_ease_last is None`
branch is taken (no prior-season table); the prior-season blend of
lines 66-83 is embedded separately as `blend` below.
-/

/-- One matchup row as produced by `read_schedule`
(schedule_io.py line 138): `date` is a day count. -/
structure MatchupRow where
  date : ℕ
  week : ℤ
  team : String
  opponent : String
  is_home : Bool
  is_light_night : Bool
deriving DecidableEq, Repr

/-- One output row of `to_lookup_table` (the SOS-path columns;
`OppEaseList` is the intermediate column that line 206 folds into
`MatchUp`). -/
structure LookupRow where
  TM : String
  Week : ℤ
  Games : ℕ
  LiteNite : ℕ
  Opponents : String
  SOS : String
  OppEaseList : String
  MatchUp : String
  Key : String
deriving DecidableEq, Repr

/-- Lexicographic comparison of character lists. -/
def charsLt : List Char → List Char → Bool
  | [], [] => false
  | [], _ :: _ => true
  | _ :: _, [] => false
  | a :: as, b :: bs =>
      if a < b then true else if b < a then false else charsLt as bs

/-- Lexicographic string comparison (the sort order pandas applies to
the string `team` key in `sort_values` and `groupby`). -/
def strLtB (a b : String) : Bool := charsLt a.data b.data

/-- Left merge of `opp_ease` onto a matchup row, on `opponent`
(export.py lines 61-65).  `build_combined_ease` emits one row per
team, so the merge is a first-match lookup; a miss is a NaN score. -/
def scoreLookup (oppEase : List (String × ℤ)) (opp : String) : Option ℤ :=
  (oppEase.find? (fun p => decide (p.1 = opp))).map (fun p => p.2)

/-- The merged frame `t` of export.py line 61, sorted by
`["team", "date"]` as on line 87. -/
def tSorted (oppEase : List (String × ℤ)) (ms : List MatchupRow) :
    List (MatchupRow × Option ℤ) :=
  insSort
    (fun a b => strLtB a.1.team b.1.team ||
      (decide (a.1.team = b.1.team) && decide (a.1.date ≤ b.1.date)))
    (ms.map (fun r => (r, scoreLookup oppEase r.opponent)))

/-- The `(team, week)` group keys of the group-by of export.py line
136, in the sorted order pandas gives them. -/
def groupKeys (t : List (MatchupRow × Option ℤ)) : List (String × ℤ) :=
  insSort (fun a b => strLtB a.1 b.1 || (decide (a.1 = b.1) && decide (a.2 ≤ b.2)))
    (uniq (t.map (fun p => (p.1.team, p.1.week))))

/-- The rows of one `(team, week)` group, in frame order. -/
def groupRows (t : List (MatchupRow × Option ℤ)) (k : String × ℤ) :
    List (MatchupRow × Option ℤ) :=
  t.filter (fun p => decide (p.1.team = k.1 ∧ p.1.week = k.2))

/-- The NaN-skipping SOS mean of one group (export.py line 139). -/
def rawSOS (t : List (MatchupRow × Option ℤ)) (k : String × ℤ) : Option ℚ :=
  nanmean ((groupRows t k).map (fun p => p.2.map (fun v => (v : ℚ))))

/-- One `OppEaseList` entry (export.py lines 142-147):
`str(int(round(float(v))))` for a present score — the scores are
integers, so the round is the identity — and the literal `"50"` for a
missing one. -/
def renderEase (o : Option ℤ) : String :=
  match o with
  | some v => toString v
  | none => "50"

/-- The data-quality guard of export.py line 178:
`grp.SOS.isna().all() or grp.SOS.std() < 0.1`.  The pandas `std()`
skips NaN and is NaN itself (comparing false) on fewer than two
values, so `std < 0.1` is `2 ≤ n` and `sampleVar < 1/100` (both sides
nonnegative, so comparing the square against `0.1 ** 2` is exact). -/
def sosGuard (t : List (MatchupRow × Option ℤ)) : Bool :=
  let svals := (groupKeys t).map (rawSOS t)
  svals.all (fun o => o.isNone) ||
    (decide (2 ≤ (svals.filterMap id).length) &&
      decide (sampleVar (svals.filterMap id) < 1/100))

/-- Tier label of export.py lines 195-203 (applied to the integer SOS
before the percent sign is appended). -/
def tierFromScore (v : ℤ) : String :=
  if v ≤ 30 then "Excellent"
  else if v ≤ 50 then "Good"
  else if v ≤ 70 then "Average"
  else "Difficult"

/-- Embeds `to_lookup_table` (export.py lines 8-213) along its SOS data
path, with `opp_ease_last = None`.  `rand` is the
`np.random.randint(20, 80, ...)` stream of line 181, indexed by group
position; when the guard does not fire the stream is never read.  The
final SOS column is `fillna(50)`, rounded, cast to `int` and suffixed
with a percent sign (lines 185-191). -/
def toLookupTable (oppEase : List (String × ℤ)) (rand : ℕ → ℤ)
    (ms : List MatchupRow) : List LookupRow :=
  let t := tSorted oppEase ms
  let ks := groupKeys t
  let g := sosGuard t
  ks.enum.map (fun ik =>
    let rows := groupRows t ik.2
    let sosQ : ℚ := if g then ((rand ik.1 : ℤ) : ℚ) else (rawSOS t ik.2).getD 50
    let sosInt := rint sosQ
    let easeList := "[" ++ String.intercalate "," (rows.map (fun p => renderEase p.2)) ++ "]"
    { TM := ik.2.1
      Week := ik.2.2
      Games := rows.length
      LiteNite := (rows.filter (fun p => p.1.is_light_night)).length
      Opponents := String.intercalate ", " (rows.map (fun p => p.1.opponent))
      SOS := toString sosInt ++ "%"
      OppEaseList := easeList
      MatchUp := tierFromScore sosInt ++ " " ++ easeList
      Key := ik.2.1 ++ toString ik.2.2 })

/-!
The season blender (export.py lines 66-83)

When a prior-season table is supplied, each matchup row blends the
prior and current opponent scores with week-sliding weights.
-/

/-- The prior-season weight `w_last` of export.py lines 76-77:
`(1 - (week - 1) / max(1, weeks - 1)).clip(lower=0, upper=1)`. -/
def wLast (week : ℚ) (weeks : ℕ) : ℚ :=
  max 0 (min (1 - (week - 1) / (max 1 (weeks - 1) : ℕ)) 1)

/-- The blended score of export.py lines 79-82: a missing prior score
falls back to the current score (`fillna`), and the weighted sum is
rounded (`.round(0)`, half to even). -/
def blend (cur : ℤ) (prior : Option ℤ) (week : ℚ) (weeks : ℕ) : ℤ :=
  let last : ℚ := ((prior.getD cur : ℤ) : ℚ)
  rint (wLast week weeks * last + (1 - wLast week weeks) * (cur : ℚ))

/-!
Embedding of `nhl_schedule/schedule_io.py`
-/

/-- ASCII uppercase of one character, the effect of the Python
`str.upper()` on the team names handled here (the accented lowercase
e is treated by the explicit replacement in `normalizeKey`; exotic
case mappings that change a length of a string are outside the
embedding). -/
def upChar (c : Char) : Char :=
  if 'a' ≤ c ∧ c ≤ 'z' then Char.ofNat (c.toNat - 32) else c

/-- Python `str.strip()` on a character list: drop leading and
trailing whitespace. -/
def trimChars (l : List Char) : List Char :=
  ((l.dropWhile fun c => decide (c = ' ' ∨ c = '\t' ∨ c = '\n' ∨ c = '\r')).reverse.dropWhile
    fun c => decide (c = ' ' ∨ c = '\t' ∨ c = '\n' ∨ c = '\r')).reverse

/-- Embeds `str(val).upper().strip()`. -/
def upperTrim (s : String) : String := String.mk (trimChars (s.data.map upChar))

/-- Embeds `_normalize_key` (schedule_io.py lines 25-33): uppercase, strip,
replace the accented E forms, then keep only the letters A-Z.  The
Python `str.upper()` maps the lowercase accented e to its uppercase
form before the replace, so the embedding replaces both forms (a
combining accent is dropped by the A-Z filter either way). -/
def normalizeKey (s : String) : String :=
  String.mk (((trimChars (s.data.map upChar)).map
      (fun c => if c = 'É' ∨ c = 'é' then 'E' else c)).filter
    (fun c => decide ('A' ≤ c ∧ c ≤ 'Z')))

/-- The Python slice `s[:3]`: the first at most three characters. -/
def strTake3 (s : String) : String := String.mk (s.data.take 3)

/-- Insert into a Python dict modelled as an association list (the
new binding replaces any old binding of the same key). -/
def dictInsert (m : List (String × String)) (k v : String) :
    List (String × String) :=
  (k, v) :: m.eraseP (fun p => p.1 == k)

/-- Dict lookup. -/
def dictLookup (m : List (String × String)) (k : String) : Option String :=
  (m.find? (fun p => decide (p.1 = k))).map (fun p => p.2)

/-- The hard-coded fallback City/Club mapping of `_load_team_mapping`
(schedule_io.py lines 53-86), used when the external mapping workbook
cannot be read — the only mapping contents that live in this
repository. -/
def baseEntries : List (String × String) :=
  [("ANAHEIM", "ANA"), ("BOSTON", "BOS"), ("BUFFALO", "BUF"),
   ("CALGARY", "CGY"), ("CAROLINA", "CAR"), ("CHICAGO", "CHI"),
   ("COLORADO", "COL"), ("COLUMBUS", "CBJ"), ("DALLAS", "DAL"),
   ("DETROIT", "DET"), ("EDMONTON", "EDM"), ("FLORIDA", "FLA"),
   ("LOSANGELES", "LAK"), ("MINNESOTA", "MIN"), ("MONTREAL", "MTL"),
   ("NASHVILLE", "NSH"), ("NEWJERSEY", "NJD"),
   ("NEWYORKISLANDERS", "NYI"), ("NEWYORKRANGERS", "NYR"),
   ("OTTAWA", "OTT"), ("PHILADELPHIA", "PHI"), ("PITTSBURGH", "PIT"),
   ("SANJOSE", "SJS"), ("SEATTLE", "SEA"), ("STLOUIS", "STL"),
   ("TAMPABAY", "TBL"), ("TORONTO", "TOR"), ("UTAH", "UTA"),
   ("VANCOUVER", "VAN"), ("VEGAS", "VGK"), ("WASHINGTON", "WSH"),
   ("WINNIPEG", "WPG")]

/-- The alias entries of schedule_io.py lines 90-96 (the duplicate
`NJ` key of the Python dict literal collapses under dict insertion,
exactly as here). -/
def aliasEntries : List (String × String) :=
  [("NJ", "NJD"), ("NJDEVILS", "NJD"), ("NJERSEY", "NJD"),
   ("NJDS", "NJD"), ("NJ", "NJD"), ("NJDOT", "NJD"),
   ("NJNEWJERSEY", "NJD"), ("NJDEV", "NJD"),
   ("LA", "LAK"), ("LAKINGS", "LAK"), ("LOSANGELESKINGS", "LAK"),
   ("SJ", "SJS"), ("SJSANJOSE", "SJS"),
   ("TB", "TBL"), ("TBB", "TBL"), ("TAMPABAYLIGHTNING", "TBL")]

/-- The dotted-alias entries of schedule_io.py line 99. -/
def dottedEntries : List (String × String) :=
  [("NJ", "NJD"), ("LA", "LAK"), ("SJ", "SJS"), ("TB", "TBL")]

/-- The mapping after the three insertion loops of schedule_io.py
lines 102-108 (keys normalized on insertion). -/
def mappingAfterAliases : List (String × String) :=
  (baseEntries ++ aliasEntries ++ dottedEntries).foldl
    (fun m kv => dictInsert m (normalizeKey kv.1) kv.2) []

/-- Embeds `TEAM_MAPPING` as built by `_load_team_mapping` on the fallback
path (schedule_io.py lines 110-118): the alias mapping plus a
self-binding for every distinct 3-letter code among its values.  The
Python `set` iteration order is unspecified, but each inserted key
`normalize(tm) = tm` is distinct, so the resulting dict does not
depend on it. -/
def TEAM_MAPPING : List (String × String) :=
  (uniq (mappingAfterAliases.map (fun p => p.2))).foldl
    (fun m tm => dictInsert m (normalizeKey tm) tm) mappingAfterAliases

/-- Embeds `_map_to_tm` (schedule_io.py lines 121-132), parameterised over
the one-time mapping table: normalize, special-case the four dotted
codes, then look the key up, falling back to
`str(val).upper().strip()[:3]` — the raw uppercased input, not the
normalized key. -/
def mapToTm (mapping : List (String × String)) (val : String) : String :=
  let key := normalizeKey val
  if key = "NJ" ∨ key = "NJD" then "NJD"
  else if key = "LA" ∨ key = "LAK" then "LAK"
  else if key = "SJ" ∨ key = "SJS" then "SJS"
  else if key = "TB" ∨ key = "TBL" then "TBL"
  else (dictLookup mapping key).getD (strTake3 (upperTrim val))

/-!
Civil calendar and derived week numbers

`read_schedule` (schedule_io.py lines 149-152) derives missing week
numbers as `to_period("W-MON").apply(lambda p: p.week)` (the config
sets `WEEK_START_DAY = "MON"`).  A pandas `W-MON` period is the
seven-day span ending on a Monday, and the `week` field of a weekly
period is the ISO-8601 week-of-year number of the period end.  Days
are counted from 0000-03-01 of the proleptic Gregorian calendar
(a Wednesday), using the standard era/year-of-era conversion
formulas. -/

/-- Day count of a civil date (valid for years at least 1). -/
def daysFromCivil (y m d : ℕ) : ℕ :=
  let yAdj := if m ≤ 2 then y - 1 else y
  let era := yAdj / 400
  let yoe := yAdj % 400
  let mp := (m + 9) % 12
  let doy := (153 * mp + 2) / 5 + d - 1
  let doe := yoe * 365 + yoe / 4 - yoe / 100 + doy
  era * 146097 + doe

/-- Civil date (year, month, day) of a day count. -/
def civilFromDays (z : ℕ) : ℕ × ℕ × ℕ :=
  let era := z / 146097
  let doe := z % 146097
  let yoe := (doe - doe / 1460 + doe / 36524 - doe / 146096) / 365
  let y := yoe + era * 400
  let doy := doe - (365 * yoe + yoe / 4 - yoe / 100)
  let mp := (5 * doy + 2) / 153
  let d := doy - (153 * mp + 2) / 5 + 1
  let m := if mp < 10 then mp + 3 else mp - 9
  (if m ≤ 2 then y + 1 else y, m, d)

/-- Day of week with Monday = 0 (day 0, 0000-03-01, is a Wednesday). -/
def dayOfWeek (z : ℕ) : ℕ := (z + 2) % 7

/-- End of the `W-MON` weekly bucket containing day `z`: the first
Monday on or after `z`. -/
def bucketEnd (z : ℕ) : ℕ := z + (5 + 7 - z % 7) % 7

/-- ISO-8601 week-of-year of day `z`: the week number of the Thursday
of the ISO week of `z`, inside the year of that Thursday. -/
def isoWeekOfDay (z : ℕ) : ℕ :=
  let thu := z + 3 - dayOfWeek z
  let y := (civilFromDays thu).1
  (thu - daysFromCivil y 1 1) / 7 + 1

/-- The derived week number of schedule_io.py line 152 for a game on
day `z`: the ISO week-of-year of the Monday that closes the `W-MON`
bucket of `z`. -/
def derivedWeek (z : ℕ) : ℤ := (isoWeekOfDay (bucketEnd z) : ℤ)

/-!
Schedule normalization (double-entry matchup rows)
-/

/-- One game row of the input schedule after column detection and
date parsing (the week is either the week column or the derived
week). -/
structure GameRow where
  date : ℕ
  week : ℤ
  home : String
  away : String
deriving DecidableEq, Repr

/-- The double-entry frame of schedule_io.py lines 157-161: a home
row then an away row per game, light-night flag not yet filled. -/
def preRows (games : List GameRow) : List MatchupRow :=
  games.map (fun g => ⟨g.date, g.week, g.home, g.away, true, false⟩) ++
    games.map (fun g => ⟨g.date, g.week, g.away, g.home, false, false⟩)

/-- LiteNite flag of a calendar day (schedule_io.py lines 163-168,
config method `by_games_threshold` with `LITENITE_MAX_GAMES = 5`):
the games of that day — half its double-entry rows — number at most
five.  Every row date occurs in the per-day index, so the `fillna` of
line 178 never fires. -/
def lightNightB (pre : List MatchupRow) (d : ℕ) : Bool :=
  decide ((((pre.filter (fun r => r.date = d)).length : ℚ)) / 2 ≤ 5)

/-- Embeds `read_schedule` from the double-entry step onward (schedule_io.py
lines 156-184): build both rows per game, attach the light-night
flag, then map both team columns through `_map_to_tm`. -/
def readScheduleMatchups (mapping : List (String × String))
    (games : List GameRow) : List MatchupRow :=
  (preRows games).map (fun r =>
    ⟨r.date, r.week, mapToTm mapping r.team, mapToTm mapping r.opponent,
      r.is_home, lightNightB (preRows games) r.date⟩)

/-!
Spec-side definition for the join-miss claim

The claim about join misses states that the SOS of a group equals the mean
over ALL of the matchups of the group with every unmatched opponent counted
as the neutral 50.  This is the arithmetic of the claim, written from the
words of the spec, to be compared with what `to_lookup_table` computes.
-/

/-- The SOS of a `(team, week)` group as the spec describes it: the
rounded mean over all the matchups of the group, an unmatched opponent
contributing the neutral score 50. -/
def claimedGroupSOS (oppEase : List (String × ℤ)) (ms : List MatchupRow)
    (k : String × ℤ) : ℤ :=
  rint (mean ((ms.filter (fun r => decide (r.team = k.1 ∧ r.week = k.2))).map
    (fun r => (((scoreLookup oppEase r.opponent).getD 50 : ℤ) : ℚ))))

/-!
Concrete inputs used by counterexamples and witnesses
-/

/-- Three complete situational rows (enough for the percentile path). -/
def dfEx : List DefRow :=
  [⟨"ANA", some 1, some 1, some 1, some 1, some 1⟩,
   ⟨"BOS", some 2, some 2, some 2, some 2, some 2⟩,
   ⟨"CGY", some 4, some 3, some 5, some 6, some 7⟩]

/-- Two rows, one of them incomplete: fewer than 3 complete rows. -/
def dfSmall : List DefRow :=
  [⟨"ANA", some 1, some 1, some 1, some 1, some 1⟩,
   ⟨"BOS", none, some 2, some 2, some 2, some 2⟩]

/-- A situational input with data for `sva` only. -/
def situEx : SituInput := ⟨some dfEx, some [], none⟩

/-- Two one-game `(team, week)` groups whose opponent scores agree, so
the group SOS column has zero variance. -/
def cexMatchups : List MatchupRow :=
  [⟨daysFromCivil 2025 10 8, 2, "AAA", "BBB", true, false⟩,
   ⟨daysFromCivil 2025 10 8, 2, "CCC", "BBB", false, false⟩]

/-- Opponent ease for `cexMatchups`. -/
def cexEase : List (String × ℤ) := [("BBB", 50)]

/-- One `(team, week)` group with one matched opponent (score 80) and
one opponent missing from the ease table. -/
def mixMatchups : List MatchupRow :=
  [⟨daysFromCivil 2025 10 8, 1, "AAA", "BBB", true, false⟩,
   ⟨daysFromCivil 2025 10 9, 1, "AAA", "XXX", false, false⟩]

/-- Opponent ease for `mixMatchups`: no entry for `XXX`. -/
def mixEase : List (String × ℤ) := [("BBB", 80)]

/-- The single output row `to_lookup_table` produces for
`mixMatchups` with `mixEase`. -/
def mixRow : LookupRow :=
  ⟨"AAA", 1, 2, 0, "BBB, XXX", "80%", "[80,50]", "Difficult [80,50]", "AAA1"⟩

/-- A schedule of one game, for the normalizer witness. -/
def gamesEx : List GameRow :=
  [⟨daysFromCivil 2025 10 8, 2, "Boston", "Toronto"⟩]

/-- Day count of 2025-12-20 (a Saturday, late in the calendar year). -/
def winterDayA : ℕ := daysFromCivil 2025 12 20

/-- Day count of 2026-01-07 (a Wednesday of the same NHL season, after
New Year). -/
def winterDayB : ℕ := daysFromCivil 2026 1 7

/-- Day count of 2025-10-01, the start of the bounded monotonicity
range (its last day, index 82, is 2025-12-22, the last date whose
weekly bucket still closes inside ISO year 2025). -/
def seasonStartDay : ℕ := daysFromCivil 2025 10 1

/-!
Helper lemmas
-/

theorem rint_intCast (n : ℤ) : rint (n : ℚ) = n := by
  unfold rint
  rw [Int.floor_intCast]
  norm_num

theorem floor_le_rint (q : ℚ) : ⌊q⌋ ≤ rint q := by
  unfold rint
  split_ifs <;> omega

theorem rint_le_ceil (q : ℚ) : rint q ≤ ⌈q⌉ := by
  have hfl := Int.floor_le q
  unfold rint
  split_ifs with h1 h2 h3
  · exact Int.floor_le_ceil q
  · exact Int.add_one_le_ceil_iff.mpr (by linarith)
  · exact Int.floor_le_ceil q
  · exact Int.add_one_le_ceil_iff.mpr (by linarith)

theorem rint_bounds {q : ℚ} (h0 : 0 ≤ q) (h1 : q ≤ 100) :
    0 ≤ rint q ∧ rint q ≤ 100 := by
  constructor
  · have : (0 : ℤ) ≤ ⌊q⌋ := by
      have := Int.floor_le_floor (α := ℚ) h0
      simpa using this
    exact le_trans this (floor_le_rint q)
  · have hc : ⌈q⌉ ≤ (100 : ℤ) := by
      have := Int.ceil_le_ceil (α := ℚ) h1
      simpa using this
    exact le_trans (rint_le_ceil q) hc

theorem clip0100_bounds (q : ℚ) : 0 ≤ clip0100 q ∧ clip0100 q ≤ 100 :=
  ⟨le_max_left 0 _, max_le (by norm_num) (min_le_right q 100)⟩

theorem nanmean_perm {xs ys : List (Option ℚ)} (h : List.Perm xs ys) :
    nanmean xs = nanmean ys := by
  unfold nanmean
  have h2 : List.Perm (xs.filterMap id) (ys.filterMap id) := h.filterMap id
  have hlen := h2.length_eq
  have hsum := h2.sum_eq
  have hemp : (xs.filterMap id).isEmpty = (ys.filterMap id).isEmpty := by
    rcases hx : xs.filterMap id with _ | ⟨a, l⟩ <;> rcases hy : ys.filterMap id with _ | ⟨b, m⟩
    · rfl
    · rw [hx, hy] at hlen; simp at hlen
    · rw [hx, hy] at hlen; simp at hlen
    · rfl
  have hm : mean (xs.filterMap id) = mean (ys.filterMap id) := by
    rw [mean, mean, hlen, hsum]
  rw [hemp, hm]

/-!
Claim theorems
-/

/-- C10: empty (missing-table) situational input is never fatal:
`_ease_from_defense` on an absent (`None`) or empty table returns an
empty ease table, and `build_combined_ease` on all-empty situation
tables returns an empty result table, in both cases without failing
(the embedding is total). -/
theorem empty_inputs_not_fatal :
    (∀ sigmaFn : List ℚ → ℚ,
      easeFromDefense sigmaFn none = [] ∧ easeFromDefense sigmaFn (some []) = []) ∧
    (∀ (sigmaFn : List ℚ → ℚ) (w : SituWeights),
      buildCombinedEase sigmaFn w ⟨some [], some [], some []⟩ = []) :=
  ⟨fun _ => ⟨rfl, rfl⟩, fun _ _ => rfl⟩

/-- C6: if, after rejecting rows with a missing feature cell, fewer
than 3 complete rows remain, `_ease_from_defense` returns ease score
exactly 50 for every team present in the input table (each distinct
team once, in order of first occurrence). -/
theorem ease_neutral_under_three_rows (sigmaFn : List ℚ → ℚ) (df : List DefRow)
    (h : (df.filter DefRow.complete).length < 3) :
    easeFromDefense sigmaFn (some df)
      = (uniq (df.map DefRow.team)).map (fun t => (t, (50 : ℚ))) := by
  by_cases hdf : df.isEmpty
  · have he : df = [] := by simpa using hdf
    subst he
    rfl
  · simp only [easeFromDefense, hdf, Bool.false_eq_true, if_false, if_pos h]

/-- C6 witness: a concrete table with one complete row yields 50 for
both of its teams (incomplete-row team included). -/
theorem ease_neutral_under_three_rows_witness :
    ((dfSmall.filter DefRow.complete).length < 3) ∧
      easeFromDefense (fun _ => 1) (some dfSmall)
        = (uniq (dfSmall.map DefRow.team)).map (fun t => (t, (50 : ℚ))) :=
  ⟨by decide, ease_neutral_under_three_rows (fun _ => 1) dfSmall (by decide)⟩

/-- C8: the season blender weights are
`w_prior = clip(1 - (week - 1) / max(1, weeks - 1), 0, 1)` and
`w_current = 1 - w_prior`; consequently at week 1 the blend equals the
prior score, at week = total_weeks (for more than one week) it equals
the current score, and with no prior-season score it equals the
current score at every week. -/
theorem blend_boundaries (cur p : ℤ) (wk : ℚ) (weeks : ℕ) :
    blend cur (some p) 1 weeks = p ∧
    (1 < weeks → blend cur (some p) (weeks : ℚ) weeks = cur) ∧
    blend cur none wk weeks = cur := by
  refine ⟨?_, ?_, ?_⟩
  · have hw : wLast 1 weeks = 1 := by
      unfold wLast
      norm_num
    unfold blend
    rw [hw]
    norm_num [rint_intCast]
  · intro hweeks
    have hd : (max 1 (weeks - 1) : ℕ) = weeks - 1 := by omega
    have hcast : ((weeks - 1 : ℕ) : ℚ) = (weeks : ℚ) - 1 := by
      have : (1 : ℕ) ≤ weeks := by omega
      push_cast [this]
      ring
    have hne : ((weeks : ℚ) - 1) ≠ 0 := by
      have : (1 : ℚ) < (weeks : ℚ) := by exact_mod_cast hweeks
      linarith
    have hw : wLast (weeks : ℚ) weeks = 0 := by
      unfold wLast
      rw [hd, hcast, div_self hne]
      norm_num
    unfold blend
    rw [hw]
    norm_num [rint_intCast]
  · unfold blend
    have : wLast wk weeks * ((cur : ℤ) : ℚ) + (1 - wLast wk weeks) * (cur : ℚ)
        = (cur : ℚ) := by ring
    simp only [Option.getD]
    rw [this, rint_intCast]

/-- C8 witness: the boundary examples of the spec —
`blend(current=70, prior=30, week=1, total_weeks=25) = 30` and
`blend(current=70, prior=30, week=25, total_weeks=25) = 70` — and the
missing-prior case. -/
theorem blend_boundaries_witness :
    blend 70 (some 30) 1 25 = 30 ∧
    ((1 : ℕ) < 25 ∧ blend 70 (some 30) ((25 : ℕ) : ℚ) 25 = 70) ∧
    blend 70 none 5 25 = 70 :=
  ⟨(blend_boundaries 70 30 5 25).1,
    ⟨by norm_num, (blend_boundaries 70 30 5 25).2.1 (by norm_num)⟩,
    (blend_boundaries 70 30 5 25).2.2⟩

/-- C5: every ease score produced by `_ease_from_defense` lies in
[0, 100], and every combined score produced by `build_combined_ease`
is an integer (by construction) in [0, 100], for every standard
deviation oracle, every weight configuration and every input. -/
theorem scores_in_range :
    (∀ (sigmaFn : List ℚ → ℚ) (inp : Option (List DefRow)) (p : String × ℚ),
        p ∈ easeFromDefense sigmaFn inp → 0 ≤ p.2 ∧ p.2 ≤ 100) ∧
    (∀ (sigmaFn : List ℚ → ℚ) (w : SituWeights) (situ : SituInput) (r : CombRow),
        r ∈ buildCombinedEase sigmaFn w situ → 0 ≤ r.score ∧ r.score ≤ 100) := by
  constructor
  · rintro sigmaFn (_ | df) p hp
    · simp [easeFromDefense] at hp
    · simp only [easeFromDefense] at hp
      split_ifs at hp with h1 h2 h3
      · simp at hp
      · obtain ⟨t, -, rfl⟩ := List.mem_map.mp hp
        norm_num
      · obtain ⟨r, -, rfl⟩ := List.mem_map.mp hp
        norm_num
      · obtain ⟨r, -, rfl⟩ := List.mem_map.mp hp
        exact clip0100_bounds _
  · intro sigmaFn w situ r hr
    simp only [buildCombinedEase, buildCombinedEaseGo] at hr
    split_ifs at hr with h1
    · simp at hr
    · obtain ⟨t, -, rfl⟩ := List.mem_map.mp hr
      dsimp only
      exact rint_bounds (clip0100_bounds _).1 (clip0100_bounds _).2

/-- C5 witness: on a concrete table the row `("ANA", 50)` is produced
and the bound theorem applies to it. -/
theorem scores_in_range_witness :
    ("ANA", (50 : ℚ)) ∈ easeFromDefense (fun _ => 1) (some dfSmall) ∧
      (0 ≤ (("ANA", (50 : ℚ)) : String × ℚ).2 ∧ (("ANA", (50 : ℚ)) : String × ℚ).2 ≤ 100) :=
  ⟨by decide, scores_in_range.1 (fun _ => 1) (some dfSmall) ("ANA", 50) (by decide)⟩

/-- C7: scaling all situation weights (including the unused remainder
slot) by a positive constant leaves the output of
`build_combined_ease` unchanged; when the three weights sum to a
nonpositive value the defaults 0.75/0.10/0.10 are used; when they sum
to a positive value the normalized weights sum to exactly 1. -/
theorem weights_scale_invariant (c : ℚ) (hc : 0 < c) (w : SituWeights)
    (sigmaFn : List ℚ → ℚ) (situ : SituInput) :
    buildCombinedEase sigmaFn ⟨c * w.sva, c * w.pp, c * w.pk, c * w.remainder⟩ situ
      = buildCombinedEase sigmaFn w situ ∧
    (w.sva + w.pp + w.pk ≤ 0 →
      normWeights w = (0.75 / 0.95, 0.10 / 0.95, 0.10 / 0.95)) ∧
    (0 < w.sva + w.pp + w.pk →
      (normWeights w).1 + (normWeights w).2.1 + (normWeights w).2.2 = 1) := by
  have key : normWeights ⟨c * w.sva, c * w.pp, c * w.pk, c * w.remainder⟩ = normWeights w := by
    simp only [normWeights]
    have htot : c * w.sva + c * w.pp + c * w.pk = c * (w.sva + w.pp + w.pk) := by ring
    rw [htot]
    by_cases h : w.sva + w.pp + w.pk ≤ 0
    · rw [if_pos h, if_pos (by nlinarith)]
    · have hpos : 0 < w.sva + w.pp + w.pk := lt_of_not_le h
      have h' : ¬ c * (w.sva + w.pp + w.pk) ≤ 0 := not_le.mpr (by positivity)
      rw [if_neg h', if_neg h]
      have hcne : c ≠ 0 := ne_of_gt hc
      rw [mul_div_mul_left _ _ hcne, mul_div_mul_left _ _ hcne, mul_div_mul_left _ _ hcne]
  refine ⟨congrArg (fun nw => buildCombinedEaseGo sigmaFn nw situ) key, ?_, ?_⟩
  · intro h
    simp only [normWeights, if_pos h]
  · intro h
    simp only [normWeights, if_neg (not_le.mpr h)]
    rw [div_add_div_same, div_add_div_same, div_self (ne_of_gt h)]

/-- C7 witness: doubling the configured weights leaves the combined
table of a concrete input unchanged. -/
theorem weights_scale_invariant_witness :
    (0 : ℚ) < 2 ∧
      buildCombinedEase (fun _ => 1)
          ⟨2 * SITUATION_WEIGHTS.sva, 2 * SITUATION_WEIGHTS.pp,
            2 * SITUATION_WEIGHTS.pk, 2 * SITUATION_WEIGHTS.remainder⟩ situEx
        = buildCombinedEase (fun _ => 1) SITUATION_WEIGHTS situEx :=
  ⟨by norm_num,
    (weights_scale_invariant 2 (by norm_num) SITUATION_WEIGHTS (fun _ => 1) situEx).1⟩

theorem strTake3_length (s : String) : (strTake3 s).length = min 3 s.length := by
  show (s.data.take 3).length = min 3 s.data.length
  exact List.length_take 3 s.data

/-- C4 counterexample: on the in-repository fallback mapping, the
resolver applied to the unmapped input `"A.B.C.D"` returns `"A.B"` —
the first three characters of the raw uppercased input, which is not
the first three letters of the normalized input `"ABCD"` and is not a
3-letter string — and applied to `"X"` it returns a 1-character
string. -/
theorem map_to_tm_fallback_cex :
    mapToTm TEAM_MAPPING "A.B.C.D" = "A.B" ∧
    mapToTm TEAM_MAPPING "A.B.C.D" ≠ strTake3 (normalizeKey "A.B.C.D") ∧
    (mapToTm TEAM_MAPPING "X").length = 1 := by
  refine ⟨by decide, by decide, by decide⟩

/-- C4 amended: the resolver is total and deterministic (it is a
function), and returns the special-cased or mapped canonical code, or
else the first three characters of the raw uppercased, trimmed input;
the result is guaranteed to have exactly 3 characters when every
mapping value is 3 characters long and the trimmed input has at least
3 characters. -/
theorem map_to_tm_total_three_letter (mapping : List (String × String)) (val : String)
    (hvals : ∀ p ∈ mapping, p.2.length = 3)
    (hlen : 3 ≤ (upperTrim val).length) :
    (mapToTm mapping val).length = 3 := by
  simp only [mapToTm]
  split_ifs with h1 h2 h3 h4
  · rfl
  · rfl
  · rfl
  · rfl
  · rcases hd : dictLookup mapping (normalizeKey val) with _ | v
    · simp only [Option.getD_none]
      rw [strTake3_length]
      omega
    · simp only [Option.getD_some]
      unfold dictLookup at hd
      obtain ⟨p, hfind, hv⟩ := Option.map_eq_some'.mp hd
      rw [← hv]
      exact hvals p (List.mem_of_find?_eq_some hfind)

/-- C4 amended witness: the fallback mapping has 3-letter values and
`"Anaheim"` has at least 3 characters, so its resolution has exactly
3 characters. -/
theorem map_to_tm_total_three_letter_witness :
    ((∀ p ∈ TEAM_MAPPING, p.2.length = 3) ∧ 3 ≤ (upperTrim "Anaheim").length) ∧
      (mapToTm TEAM_MAPPING "Anaheim").length = 3 :=
  ⟨⟨by decide, by decide⟩,
    map_to_tm_total_three_letter TEAM_MAPPING "Anaheim" (by decide) (by decide)⟩

/-- C9: for every game row the Schedule Normalizer produces exactly
two matchup rows — the output has twice as many rows as the input,
the row at the index of the game has `(team, opponent) = (home, away)` and
`is_home = true`, and the row offset by the game count has
`(team, opponent) = (away, home)` and `is_home = false`, both
preserving the date and week of the game (team codes pass through the
resolver, which is applied to both columns alike). -/
theorem normalizer_two_rows_per_game (mapping : List (String × String))
    (games : List GameRow) :
    (readScheduleMatchups mapping games).length = 2 * games.length ∧
    ∀ i g, games[i]? = some g →
      (readScheduleMatchups mapping games)[i]? =
        some ⟨g.date, g.week, mapToTm mapping g.home, mapToTm mapping g.away, true,
          lightNightB (preRows games) g.date⟩ ∧
      (readScheduleMatchups mapping games)[games.length + i]? =
        some ⟨g.date, g.week, mapToTm mapping g.away, mapToTm mapping g.home, false,
          lightNightB (preRows games) g.date⟩ := by
  constructor
  · simp [readScheduleMatchups, preRows, Nat.two_mul]
  · intro i g hg
    have hi : i < games.length := (List.getElem?_eq_some.mp hg).1
    constructor
    · rw [readScheduleMatchups, List.getElem?_map, preRows, List.getElem?_append,
        if_pos (by rw [List.length_map]; omega), List.getElem?_map, hg]
      rfl
    · rw [readScheduleMatchups, List.getElem?_map, preRows, List.getElem?_append,
        if_neg (by rw [List.length_map]; omega)]
      have hidx : games.length + i -
          (games.map (fun g =>
            (⟨g.date, g.week, g.home, g.away, true, false⟩ : MatchupRow))).length = i := by
        rw [List.length_map]; omega
      rw [hidx, List.getElem?_map, hg]
      rfl

/-- C9 witness: the one-game schedule produces its home row at index
0 and its away row at index 1. -/
theorem normalizer_two_rows_per_game_witness :
    gamesEx[0]? = some ⟨daysFromCivil 2025 10 8, 2, "Boston", "Toronto"⟩ ∧
      ((readScheduleMatchups TEAM_MAPPING gamesEx)[0]? =
        some ⟨daysFromCivil 2025 10 8, 2, mapToTm TEAM_MAPPING "Boston",
          mapToTm TEAM_MAPPING "Toronto", true,
          lightNightB (preRows gamesEx) (daysFromCivil 2025 10 8)⟩ ∧
      (readScheduleMatchups TEAM_MAPPING gamesEx)[gamesEx.length + 0]? =
        some ⟨daysFromCivil 2025 10 8, 2, mapToTm TEAM_MAPPING "Toronto",
          mapToTm TEAM_MAPPING "Boston", false,
          lightNightB (preRows gamesEx) (daysFromCivil 2025 10 8)⟩) :=
  ⟨rfl, (normalizer_two_rows_per_game TEAM_MAPPING gamesEx).2 0 _ rfl⟩

/-- C2 counterexample: 2025-12-20 and 2026-01-07 lie in the same NHL
season and in different weekly buckets, the second is chronologically
later, yet its derived week number is smaller (3 versus 52): the
derived index is the ISO week-of-year of the closing Monday of the bucket
and resets at the turn of the calendar year. -/
theorem derived_week_not_monotone_cex :
    winterDayA < winterDayB ∧
    bucketEnd winterDayA ≠ bucketEnd winterDayB ∧
    derivedWeek winterDayA = 52 ∧ derivedWeek winterDayB = 3 ∧
    derivedWeek winterDayB < derivedWeek winterDayA := by decide

set_option maxRecDepth 10000 in
set_option maxHeartbeats 4000000 in
/-- C2 amended: the derived week number is the ISO week-of-year of
the Monday closing the weekly bucket of the date; between two dates in
different buckets it is strictly increasing as long as the buckets
close in the same ISO year — here verified over the whole stretch
2025-10-01 through 2025-12-22 of the season, the dates whose buckets
close inside ISO year 2025 — but it resets at the calendar year
boundary, so monotonicity over a whole season does not hold. -/
theorem derived_week_monotone_within_year :
    ∀ a : ℕ, a < 83 → ∀ b : ℕ, b < 83 →
      seasonStartDay + a < seasonStartDay + b →
      bucketEnd (seasonStartDay + a) ≠ bucketEnd (seasonStartDay + b) →
      derivedWeek (seasonStartDay + a) < derivedWeek (seasonStartDay + b) := by decide

/-- C2 amended witness: 2025-10-01 and 2025-10-08 are in different
buckets closing in the same ISO year, and the later date gets the
strictly larger derived week. -/
theorem derived_week_monotone_within_year_witness :
    ((0 : ℕ) < 83 ∧ (7 : ℕ) < 83 ∧ seasonStartDay + 0 < seasonStartDay + 7 ∧
      bucketEnd (seasonStartDay + 0) ≠ bucketEnd (seasonStartDay + 7)) ∧
      derivedWeek (seasonStartDay + 0) < derivedWeek (seasonStartDay + 7) :=
  ⟨⟨by decide, by decide, by decide, by decide⟩,
    derived_week_monotone_within_year 0 (by decide) 7 (by decide) (by decide) (by decide)⟩

section
attribute [local semireducible] Rat.add Rat.mul Rat.sub Rat.inv Rat.ofScientific

/-- C1: on an input whose per-group SOS means are all equal (zero
variance), the guard of export.py line 178 fires and line 181
overwrites every SOS with a fresh `np.random.randint(20, 80)` draw:
the rounded group means (all 50 here) are replaced, and two runs on
identical inputs that draw different streams produce different SOS
columns.  This contradicts the spec, which asks for the condition to
be reported without replacing the values. -/
theorem sos_guard_randomizes :
    sosGuard (tSorted cexEase cexMatchups) = true ∧
    rawSOS (tSorted cexEase cexMatchups) ("AAA", 2) = some 50 ∧
    (toLookupTable cexEase (fun _ => 20) cexMatchups).map (fun r => r.SOS)
      = ["20%", "20%"] ∧
    (toLookupTable cexEase (fun _ => 70) cexMatchups).map (fun r => r.SOS)
      = ["70%", "70%"] ∧
    toLookupTable cexEase (fun _ => 20) cexMatchups ≠
      toLookupTable cexEase (fun _ => 70) cexMatchups :=
  ⟨by decide, by decide, by decide, by decide, by decide⟩

/-- C3 counterexample: in a `(team, week)` group with one matched
opponent (score 80) and one opponent absent from the ease table, the
emitted SOS is `80%` — the NaN-skipping mean over matched opponents
only — whereas the claim (mean over all matchups with the unmatched
opponent counted as 50) gives 65. -/
theorem sos_skips_unmatched_cex :
    (toLookupTable mixEase (fun _ => 0) mixMatchups).map (fun r => r.SOS)
      = ["80%"] ∧
    claimedGroupSOS mixEase mixMatchups ("AAA", 1) = 65 ∧
    ("80%" : String) ≠ "65%" :=
  ⟨by decide, by decide, by decide⟩

/-- C3 amended: unmatched matchup rows are kept, never dropped — each
field `Games` of an output row counts all matchups of its group, matched or
not, and each unmatched opponent contributes its own `"50"` entry to
the `OppEaseList` (so every join miss is individually observable) —
but the SOS of the group is the rounded NaN-skipping mean over the matched
opponents only (50 when no opponent matches), not the claimed mean
with unmatched opponents counted as 50; stated for runs in which the
zero-variance guard does not fire (the guard overwrites SOS, see C1). -/
theorem sos_mean_over_matched_only (oppEase : List (String × ℤ)) (rand : ℕ → ℤ)
    (ms : List MatchupRow) (hguard : sosGuard (tSorted oppEase ms) = false)
    (row : LookupRow) (hrow : row ∈ toLookupTable oppEase rand ms) :
    ms.filter (fun r => decide (r.team = row.TM ∧ r.week = row.Week)) ≠ [] ∧
    row.Games =
      (ms.filter (fun r => decide (r.team = row.TM ∧ r.week = row.Week))).length ∧
    row.SOS = toString (rint ((nanmean ((ms.filter (fun r =>
        decide (r.team = row.TM ∧ r.week = row.Week))).map
      (fun r => (scoreLookup oppEase r.opponent).map (fun v => (v : ℚ))))).getD 50)) ++ "%" ∧
    ∃ l, List.Perm l ((ms.filter (fun r => decide (r.team = row.TM ∧ r.week = row.Week))).map
        (fun r => renderEase (scoreLookup oppEase r.opponent))) ∧
      row.OppEaseList = "[" ++ String.intercalate "," l ++ "]" := by
  simp only [toLookupTable] at hrow
  obtain ⟨⟨i, k⟩, hik, rfl⟩ := List.mem_map.mp hrow
  dsimp only
  have hk : k ∈ groupKeys (tSorted oppEase ms) := List.snd_mem_of_mem_enum hik
  have hperm0 : List.Perm (tSorted oppEase ms)
      (ms.map (fun r => (r, scoreLookup oppEase r.opponent))) := perm_insSort _ _
  have hpermG : List.Perm (groupRows (tSorted oppEase ms) k)
      ((ms.filter (fun r => decide (r.team = k.1 ∧ r.week = k.2))).map
        (fun r => (r, scoreLookup oppEase r.opponent))) := by
    have h2 := hperm0.filter (fun p => decide (p.1.team = k.1 ∧ p.1.week = k.2))
    rw [List.filter_map] at h2
    exact h2
  have hlen : (groupRows (tSorted oppEase ms) k).length
      = (ms.filter (fun r => decide (r.team = k.1 ∧ r.week = k.2))).length := by
    rw [hpermG.length_eq, List.length_map]
  have hkmem : ∃ p ∈ tSorted oppEase ms, (p.1.team, p.1.week) = k := by
    have h1 : k ∈ uniq ((tSorted oppEase ms).map (fun p => (p.1.team, p.1.week))) :=
      (mem_insSort _ k _).mp hk
    have h2 := (mem_uniq _ _).mp h1
    obtain ⟨p, hp, hpk⟩ := List.mem_map.mp h2
    exact ⟨p, hp, hpk⟩
  obtain ⟨p, hp, hpk⟩ := hkmem
  have hprow : p ∈ groupRows (tSorted oppEase ms) k := by
    refine List.mem_filter.mpr ⟨hp, ?_⟩
    simp [← hpk]
  have hGne : ms.filter (fun r => decide (r.team = k.1 ∧ r.week = k.2)) ≠ [] := by
    intro h0
    have h1 : (groupRows (tSorted oppEase ms) k).length = 0 := by
      rw [hlen, h0]
      rfl
    exact List.ne_nil_of_mem hprow (List.length_eq_zero.mp h1)
  have hsos : rawSOS (tSorted oppEase ms) k
      = nanmean ((ms.filter (fun r => decide (r.team = k.1 ∧ r.week = k.2))).map
          (fun r => (scoreLookup oppEase r.opponent).map (fun v => (v : ℚ)))) := by
    unfold rawSOS
    apply nanmean_perm
    have h3 := hpermG.map (fun p => p.2.map (fun v => (v : ℚ)))
    simpa [List.map_map, Function.comp] using h3
  refine ⟨hGne, hlen, ?_, ?_⟩
  · dsimp only
    rw [hguard]
    simp only [Bool.false_eq_true, if_false, hsos]
  · refine ⟨(groupRows (tSorted oppEase ms) k).map (fun p => renderEase p.2), ?_, rfl⟩
    have h4 := hpermG.map (fun p => renderEase p.2)
    simpa [List.map_map, Function.comp] using h4

/-- C3 amended witness: the concrete mixed group (one matched
opponent at 80, one join miss) is kept whole — `Games = 2`, the miss
shows as `"50"` in the ease list — and its SOS is `80%`, the mean over
the matched opponent only. -/
theorem sos_mean_over_matched_only_witness :
    (sosGuard (tSorted mixEase mixMatchups) = false ∧
      mixRow ∈ toLookupTable mixEase (fun _ => 0) mixMatchups) ∧
    (mixMatchups.filter (fun r => decide (r.team = mixRow.TM ∧ r.week = mixRow.Week)) ≠ [] ∧
      mixRow.Games = (mixMatchups.filter (fun r =>
        decide (r.team = mixRow.TM ∧ r.week = mixRow.Week))).length ∧
      mixRow.SOS = toString (rint ((nanmean ((mixMatchups.filter (fun r =>
          decide (r.team = mixRow.TM ∧ r.week = mixRow.Week))).map
        (fun r => (scoreLookup mixEase r.opponent).map (fun v => (v : ℚ))))).getD 50)) ++ "%" ∧
      ∃ l, List.Perm l ((mixMatchups.filter (fun r =>
          decide (r.team = mixRow.TM ∧ r.week = mixRow.Week))).map
          (fun r => renderEase (scoreLookup mixEase r.opponent))) ∧
        mixRow.OppEaseList = "[" ++ String.intercalate "," l ++ "]") :=
  ⟨⟨by decide, by decide⟩,
    sos_mean_over_matched_only mixEase (fun _ => 0) mixMatchups (by decide) mixRow (by decide)⟩

end

end NHL
